import Mathlib

/-!
Verification of the ect-smart-scan utility layer.

The development embeds, in Lean, the pure content of the repository's two
source files:

* `helpers.py` — `dict_merge` / `read_settings` (recursive settings merge),
  `save_csv` and `plot_data` (validation, filename-collision handling,
  complex-magnitude plotting);
* `ect-smart-scan.py` — the trajectory velocity-list construction.

Python dictionaries are embedded as insertion-ordered association lists over
an arbitrary payload type; `dict1[k] = v` keeps the key position when the key
exists and appends otherwise, which `assocSet` mirrors.  NumPy arrays are
embedded at the level of their shapes (lists of dimension sizes), with the
value-level complex/real distinction kept where `plot_data` inspects it.
The filesystem is a list of file names already present.
-/

namespace EctSmartScan

/-! ## Nested dictionaries (`helpers.dict_merge`, `helpers.read_settings`) -/

/-- A YAML-style value: either a scalar payload or a nested mapping, the
latter embedded as an insertion-ordered association list. -/
inductive YVal (α : Type) where
  | leaf : α → YVal α
  | dict : List (String × YVal α) → YVal α

/-- A Python dictionary with `YVal` values: an insertion-ordered association
list with (in well-formed states) no duplicated keys. -/
abbrev Dict (α : Type) := List (String × YVal α)

variable {α : Type}

/-- Key lookup in an association list, first match wins (in a duplicate-free
list this is Python's `dict1[k]` read). -/
def alookup : Dict α → String → Option (YVal α)
  | [], _ => none
  | (k', v) :: rest, k => if k' = k then some v else alookup rest k

/-- Python's `dict1[k] = v`: replace the value at the first occurrence of the
key, keeping its position, or append a fresh entry at the end. -/
def assocSet : Dict α → String → YVal α → Dict α
  | [], k, v => [(k, v)]
  | (k', v') :: rest, k, v =>
    if k' = k then (k', v) :: rest else (k', v') :: assocSet rest k v

/-- `helpers.dict_merge(dict1, dict2)`: iterate over `dict2`'s items; when the
key is present in `dict1` and both values are dictionaries, recurse, otherwise
overwrite `dict1[k]` with `dict2[k]`.  The Lean version returns the final value
of the mutated `dict1`. -/
def dictMerge : Dict α → Dict α → Dict α
  | d1, [] => d1
  | d1, (k, YVal.leaf a) :: rest => dictMerge (assocSet d1 k (YVal.leaf a)) rest
  | d1, (k, YVal.dict s2) :: rest =>
    dictMerge
      (match alookup d1 k with
        | some (YVal.dict s1) => assocSet d1 k (YVal.dict (dictMerge s1 s2))
        | _ => assocSet d1 k (YVal.dict s2))
      rest
termination_by _ d2 => sizeOf d2
decreasing_by all_goals (simp_wf; try omega)

mutual

/-- Well-formedness of a value: every nested mapping has duplicate-free keys
(true of every Python dictionary). -/
def wfV : YVal α → Bool
  | YVal.leaf _ => true
  | YVal.dict d => decide ((d.map Prod.fst).Nodup) && wfL d

/-- Well-formedness of the values stored in an association list. -/
def wfL : List (String × YVal α) → Bool
  | [] => true
  | (_, v) :: rest => wfV v && wfL rest

end

/-- Well-formedness of a dictionary: duplicate-free keys at this level and in
every nested mapping. -/
def wfD (d : Dict α) : Bool := decide ((d.map Prod.fst).Nodup) && wfL d

mutual

/-- Value found by following a key path from a value. -/
def leafAtV : YVal α → List String → Option α
  | YVal.leaf a, [] => some a
  | YVal.leaf _, _ :: _ => none
  | YVal.dict d, p => leafAtD d p

/-- Value found by following a key path from a dictionary: `some a` exactly
when the path leads to the scalar `a`. -/
def leafAtD : List (String × YVal α) → List String → Option α
  | _, [] => none
  | [], _ :: _ => none
  | (k', v) :: rest, k :: ks => if k' = k then leafAtV v ks else leafAtD rest (k :: ks)

end

/-- The value the merge stores at a key: when a default and an override are
both dictionaries they are merged recursively, otherwise the override wins. -/
def mergeVal (o : Option (YVal α)) (v : YVal α) : YVal α :=
  match o, v with
  | some (YVal.dict s1), YVal.dict s2 => YVal.dict (dictMerge s1 s2)
  | _, _ => v

/-- Scalar payloads appearing in `helpers.read_settings`' default settings. -/
inductive SVal where
  | s : String → SVal
  | i : Int → SVal
  | il : List Int → SVal

/-- The `default_settings` dictionary rebuilt on every call of
`helpers.read_settings`. -/
def default_settings : Dict SVal :=
  [("job", YVal.dict [("name", YVal.leaf (SVal.s "TestScan"))]),
   ("material", YVal.dict [("name", YVal.leaf (SVal.s "Aluminium"))]),
   ("oscilloscope", YVal.dict
     [("mode", YVal.leaf (SVal.s "MM_BLOCK")),
      ("resolution", YVal.leaf (SVal.i 12)),
      ("active_channels", YVal.leaf (SVal.il [-1])),
      ("coupling", YVal.leaf (SVal.s "CK_ACV"))]),
   ("trajectory", YVal.dict
     [("init_x", YVal.leaf (SVal.i 100)),
      ("init_y", YVal.leaf (SVal.i 0))])]

/-- `helpers.read_settings` after YAML parsing (parsing itself is an external
collaborator): merge the parsed settings onto the defaults and return the
result. -/
def read_settings (parsed : Dict SVal) : Dict SVal :=
  dictMerge default_settings parsed

/-! ### Association-list lemmas -/

theorem alookup_assocSet_self (l : Dict α) (k : String) (v : YVal α) :
    alookup (assocSet l k v) k = some v := by
  induction l with
  | nil => simp [assocSet, alookup]
  | cons hd tl ih =>
    obtain ⟨k', v'⟩ := hd
    by_cases h : k' = k
    · simp [assocSet, alookup, h]
    · simp [assocSet, alookup, h, ih]

theorem alookup_assocSet_other (l : Dict α) (k k₂ : String) (v : YVal α)
    (h : k ≠ k₂) : alookup (assocSet l k v) k₂ = alookup l k₂ := by
  induction l with
  | nil => simp [assocSet, alookup, h]
  | cons hd tl ih =>
    obtain ⟨k', v'⟩ := hd
    by_cases hk : k' = k
    · subst hk
      simp [assocSet, alookup, h]
    · simp [assocSet, alookup, hk, ih]

theorem assocSet_eq_self (l : Dict α) (k : String) (v : YVal α)
    (h : alookup l k = some v) : assocSet l k v = l := by
  induction l with
  | nil => simp [alookup] at h
  | cons hd tl ih =>
    obtain ⟨k', v'⟩ := hd
    by_cases hk : k' = k
    · simp [alookup, hk] at h
      simp [assocSet, hk, h]
    · simp [alookup, hk] at h
      simp [assocSet, hk, ih h]

theorem alookup_eq_none_iff (l : Dict α) (k : String) :
    alookup l k = none ↔ k ∉ l.map Prod.fst := by
  induction l with
  | nil => simp [alookup]
  | cons hd tl ih =>
    obtain ⟨k', v'⟩ := hd
    by_cases hk : k' = k
    · simp [alookup, hk]
    · simp [alookup, hk, ih, Ne.symm hk]

theorem alookup_mem (l : Dict α) (k : String) (v : YVal α)
    (h : alookup l k = some v) : (k, v) ∈ l := by
  induction l with
  | nil => simp [alookup] at h
  | cons hd tl ih =>
    obtain ⟨k', v'⟩ := hd
    by_cases hk : k' = k
    · simp [alookup, hk] at h
      simp [hk, h]
    · simp [alookup, hk] at h
      exact List.mem_cons_of_mem _ (ih h)

theorem nodup_alookup (l : Dict α) (h : (l.map Prod.fst).Nodup)
    (k : String) (v : YVal α) (hm : (k, v) ∈ l) : alookup l k = some v := by
  induction l with
  | nil => simp at hm
  | cons hd tl ih =>
    obtain ⟨k', v'⟩ := hd
    simp only [List.map_cons, List.nodup_cons] at h
    rcases List.mem_cons.mp hm with heq | hmem
    · obtain ⟨hk, hv⟩ := Prod.mk.injEq .. ▸ heq
      simp [alookup, hk.symm, hv]
    · have hk : k' ≠ k := by
        rintro rfl
        exact h.1 (List.mem_map.mpr ⟨(k', v), hmem, rfl⟩)
      simp [alookup, hk, ih h.2 hmem]

/-! ### `dict_merge` unfolding and lookup characterisation -/

theorem dictMerge_nil (d1 : Dict α) : dictMerge d1 [] = d1 := by
  simp [dictMerge]

theorem dictMerge_cons (d1 : Dict α) (k : String) (v : YVal α) (rest : Dict α) :
    dictMerge d1 ((k, v) :: rest) =
      dictMerge (assocSet d1 k (mergeVal (alookup d1 k) v)) rest := by
  cases v with
  | leaf a =>
    have hm : mergeVal (alookup d1 k) (YVal.leaf a) = YVal.leaf a := by
      cases h : alookup d1 k with
      | none => rfl
      | some w => cases w <;> rfl
    rw [hm, dictMerge]
  | dict s2 =>
    rw [dictMerge]
    cases h : alookup d1 k with
    | none => simp [mergeVal, h]
    | some w => cases w <;> simp [mergeVal, h]

theorem merge_alookup_notin (d2 : Dict α) :
    ∀ (d1 : Dict α) (k : String), k ∉ d2.map Prod.fst →
      alookup (dictMerge d1 d2) k = alookup d1 k := by
  induction d2 with
  | nil => intro d1 k _; rw [dictMerge_nil]
  | cons hd rest ih =>
    intro d1 k hk
    obtain ⟨k₀, v₀⟩ := hd
    simp only [List.map_cons, List.mem_cons] at hk
    push_neg at hk
    rw [dictMerge_cons, ih _ _ hk.2, alookup_assocSet_other _ _ _ _ (Ne.symm hk.1)]

theorem merge_alookup_in (d2 : Dict α) :
    ∀ (d1 : Dict α) (k : String) (v : YVal α), (d2.map Prod.fst).Nodup →
      alookup d2 k = some v →
      alookup (dictMerge d1 d2) k = some (mergeVal (alookup d1 k) v) := by
  induction d2 with
  | nil => intro d1 k v _ h; simp [alookup] at h
  | cons hd rest ih =>
    intro d1 k v hnd h
    obtain ⟨k₀, v₀⟩ := hd
    simp only [List.map_cons, List.nodup_cons] at hnd
    by_cases hk : k₀ = k
    · subst hk
      simp [alookup] at h
      subst h
      rw [dictMerge_cons, merge_alookup_notin _ _ _ hnd.1, alookup_assocSet_self]
    · simp only [alookup, if_neg hk] at h
      rw [dictMerge_cons, ih _ _ _ hnd.2 h, alookup_assocSet_other _ _ _ _ hk]

/-! ### Well-formedness and path lemmas -/

theorem wfV_dict (d : Dict α) : wfV (YVal.dict d) = wfD d := rfl

theorem wfD_nodup {d : Dict α} (h : wfD d = true) : (d.map Prod.fst).Nodup := by
  simp only [wfD, Bool.and_eq_true, decide_eq_true_eq] at h
  exact h.1

theorem wfD_wfL {d : Dict α} (h : wfD d = true) : wfL d = true := by
  simp only [wfD, Bool.and_eq_true] at h
  exact h.2

theorem wfL_mem {l : List (String × YVal α)} (h : wfL l = true)
    {k : String} {v : YVal α} (hm : (k, v) ∈ l) : wfV v = true := by
  induction l with
  | nil => simp at hm
  | cons hd tl ih =>
    obtain ⟨k', v'⟩ := hd
    simp only [wfL, Bool.and_eq_true] at h
    rcases List.mem_cons.mp hm with heq | hmem
    · obtain ⟨_, hv⟩ := Prod.mk.injEq .. ▸ heq
      exact hv ▸ h.1
    · exact ih h.2 hmem

theorem wfD_cons {k : String} {v : YVal α} {rest : Dict α}
    (h : wfD ((k, v) :: rest) = true) :
    k ∉ rest.map Prod.fst ∧ wfV v = true ∧ wfD rest = true := by
  simp only [wfD, List.map_cons, List.nodup_cons, wfL, Bool.and_eq_true,
    decide_eq_true_eq] at h ⊢
  exact ⟨h.1.1, h.2.1, h.1.2, h.2.2⟩

theorem wfD_sub {O : Dict α} (h : wfD O = true) {k : String} {s2 : Dict α}
    (hl : alookup O k = some (YVal.dict s2)) : wfD s2 = true := by
  have := wfL_mem (wfD_wfL h) (alookup_mem _ _ _ hl)
  rwa [wfV_dict] at this

theorem sizeOf_alookup {O : Dict α} {k : String} {v : YVal α}
    (h : alookup O k = some v) : sizeOf v < sizeOf O := by
  have hm := List.sizeOf_lt_of_mem (alookup_mem _ _ _ h)
  simp only [Prod.mk.sizeOf_spec] at hm
  omega

theorem leafAtD_nil (d : Dict α) : leafAtD d [] = none := by
  cases d <;> rfl

theorem leafAtV_dict (d : Dict α) (p : List String) :
    leafAtV (YVal.dict d) p = leafAtD d p := rfl

theorem leafAtD_eq_none {d : Dict α} {k : String} (ks : List String)
    (h : alookup d k = none) : leafAtD d (k :: ks) = none := by
  induction d with
  | nil => rfl
  | cons hd tl ih =>
    obtain ⟨k', v'⟩ := hd
    by_cases hk : k' = k
    · simp [alookup, hk] at h
    · simp only [alookup, if_neg hk] at h
      simp only [leafAtD, if_neg hk]
      exact ih h

theorem leafAtD_eq_some {d : Dict α} {k : String} {v : YVal α} (ks : List String)
    (h : alookup d k = some v) : leafAtD d (k :: ks) = leafAtV v ks := by
  induction d with
  | nil => simp [alookup] at h
  | cons hd tl ih =>
    obtain ⟨k', v'⟩ := hd
    by_cases hk : k' = k
    · simp only [alookup, if_pos hk] at h
      obtain rfl : v' = v := by simpa using h
      simp only [leafAtD, if_pos hk]
    · simp only [alookup, if_neg hk] at h
      simp only [leafAtD, if_neg hk]
      exact ih h

theorem mergeVal_leaf (o : Option (YVal α)) (b : α) :
    mergeVal o (YVal.leaf b) = YVal.leaf b := by
  cases o with
  | none => rfl
  | some w => cases w <;> rfl

theorem mergeVal_none (v : YVal α) : mergeVal (none : Option (YVal α)) v = v := by
  cases v <;> rfl

theorem mergeVal_some_leaf (c : α) (v : YVal α) :
    mergeVal (some (YVal.leaf c)) v = v := by
  cases v <;> rfl

theorem mergeVal_dict_dict (s1 s2 : Dict α) :
    mergeVal (some (YVal.dict s1)) (YVal.dict s2) = YVal.dict (dictMerge s1 s2) := rfl

/-! ### Leaf-path behaviour of the merge -/

theorem leaf_complete_aux (N : Nat) :
    ∀ (O : Dict α), sizeOf O < N → wfD O = true →
      ∀ (D : Dict α) (p : List String) (a : α), leafAtD O p = some a →
        leafAtD (dictMerge D O) p = some a := by
  induction N with
  | zero => intro O hO; omega
  | succ N ih =>
    intro O hO hwf D p a hleaf
    cases p with
    | nil => rw [leafAtD_nil] at hleaf; exact absurd hleaf (by simp)
    | cons k ks =>
      cases hOk : alookup O k with
      | none => rw [leafAtD_eq_none ks hOk] at hleaf; exact absurd hleaf (by simp)
      | some v =>
        rw [leafAtD_eq_some ks hOk] at hleaf
        have hM := merge_alookup_in O D k v (wfD_nodup hwf) hOk
        rw [leafAtD_eq_some ks hM]
        cases v with
        | leaf b => rw [mergeVal_leaf]; exact hleaf
        | dict s2 =>
          have hwf2 : wfD s2 = true := wfD_sub hwf hOk
          have hsz : sizeOf s2 < N := by
            have h1 := sizeOf_alookup hOk
            have h2 : sizeOf (YVal.dict s2) = 1 + sizeOf s2 := by simp
            omega
          cases hDk : alookup D k with
          | none =>
            rw [mergeVal_none]
            exact hleaf
          | some w =>
            cases w with
            | leaf c =>
              rw [mergeVal_some_leaf]
              exact hleaf
            | dict s1 =>
              rw [mergeVal_dict_dict, leafAtV_dict]
              rw [leafAtV_dict] at hleaf
              exact ih s2 hsz hwf2 s1 ks a hleaf

theorem leaf_sound_aux (N : Nat) :
    ∀ (O : Dict α), sizeOf O < N → wfD O = true →
      ∀ (D : Dict α) (p : List String) (b : α),
        leafAtD (dictMerge D O) p = some b →
          leafAtD O p = some b ∨ (leafAtD O p = none ∧ leafAtD D p = some b) := by
  induction N with
  | zero => intro O hO; omega
  | succ N ih =>
    intro O hO hwf D p b hleaf
    cases p with
    | nil => rw [leafAtD_nil] at hleaf; exact absurd hleaf (by simp)
    | cons k ks =>
      cases hOk : alookup O k with
      | none =>
        have hkey : k ∉ O.map Prod.fst := (alookup_eq_none_iff _ _).mp hOk
        have hpres := merge_alookup_notin O D k hkey
        cases hDk : alookup D k with
        | none =>
          rw [leafAtD_eq_none ks (hpres.trans hDk)] at hleaf
          exact absurd hleaf (by simp)
        | some w =>
          rw [leafAtD_eq_some ks (hpres.trans hDk)] at hleaf
          exact Or.inr ⟨leafAtD_eq_none ks hOk, (leafAtD_eq_some ks hDk).trans hleaf⟩
      | some v =>
        have hM := merge_alookup_in O D k v (wfD_nodup hwf) hOk
        rw [leafAtD_eq_some ks hM] at hleaf
        cases v with
        | leaf c =>
          rw [mergeVal_leaf] at hleaf
          exact Or.inl ((leafAtD_eq_some ks hOk).trans hleaf)
        | dict s2 =>
          have hwf2 : wfD s2 = true := wfD_sub hwf hOk
          have hsz : sizeOf s2 < N := by
            have h1 := sizeOf_alookup hOk
            have h2 : sizeOf (YVal.dict s2) = 1 + sizeOf s2 := by simp
            omega
          cases hDk : alookup D k with
          | none =>
            rw [hDk, mergeVal_none] at hleaf
            exact Or.inl ((leafAtD_eq_some ks hOk).trans hleaf)
          | some w =>
            cases w with
            | leaf c =>
              rw [hDk, mergeVal_some_leaf] at hleaf
              exact Or.inl ((leafAtD_eq_some ks hOk).trans hleaf)
            | dict s1 =>
              rw [hDk, mergeVal_dict_dict, leafAtV_dict] at hleaf
              rcases ih s2 hsz hwf2 s1 ks b hleaf with hl | ⟨hn, hd⟩
              · exact Or.inl ((leafAtD_eq_some ks hOk).trans ((leafAtV_dict _ _).trans hl))
              · refine Or.inr ⟨(leafAtD_eq_some ks hOk).trans ((leafAtV_dict _ _).trans hn), ?_⟩
                rw [leafAtD_eq_some ks hDk, leafAtV_dict]
                exact hd

/-! ### Idempotence machinery -/

theorem selfMerge_aux (N : Nat) :
    ∀ (l2 : Dict α), sizeOf l2 < N →
      ∀ (X : Dict α), (∀ k v, (k, v) ∈ l2 → alookup X k = some v ∧ wfV v = true) →
        dictMerge X l2 = X := by
  induction N with
  | zero => intro l2 h; omega
  | succ N ih =>
    intro l2 hsz X hmem
    cases l2 with
    | nil => exact dictMerge_nil X
    | cons hd rest =>
      obtain ⟨k, v⟩ := hd
      have hkv := hmem k v (List.mem_cons_self _ _)
      have hstep : assocSet X k (mergeVal (alookup X k) v) = X := by
        rw [hkv.1]
        cases v with
        | leaf a =>
          rw [mergeVal_leaf]
          exact assocSet_eq_self _ _ _ hkv.1
        | dict s =>
          rw [mergeVal_dict_dict]
          have hwfs : wfD s = true := by
            have := hkv.2
            rwa [wfV_dict] at this
          have hself : dictMerge s s = s := by
            refine ih s ?_ s ?_
            · have : sizeOf (YVal.dict s) ≤ sizeOf ((k, YVal.dict s) :: rest) := by
                simp only [List.cons.sizeOf_spec, Prod.mk.sizeOf_spec]
                omega
              simp only [YVal.dict.sizeOf_spec] at this
              omega
            · intro k' v' hm
              exact ⟨nodup_alookup s (wfD_nodup hwfs) k' v' hm,
                wfL_mem (wfD_wfL hwfs) hm⟩
          rw [hself]
          exact assocSet_eq_self _ _ _ hkv.1
      rw [dictMerge_cons, hstep]
      refine ih rest ?_ X ?_
      · simp only [List.cons.sizeOf_spec] at hsz
        omega
      · intro k' v' hm
        exact hmem k' v' (List.mem_cons_of_mem _ hm)

theorem dictMerge_self (X : Dict α) (h : wfD X = true) : dictMerge X X = X :=
  selfMerge_aux (sizeOf X + 1) X (by omega) X
    (fun k' v' hm => ⟨nodup_alookup X (wfD_nodup h) k' v' hm,
      wfL_mem (wfD_wfL h) hm⟩)

theorem mergeVal_absorb (o : Option (YVal α)) (v : YVal α) (hv : wfV v = true)
    (hidem : ∀ (s1 s2 : Dict α), v = YVal.dict s2 →
      dictMerge (dictMerge s1 s2) s2 = dictMerge s1 s2) :
    mergeVal (some (mergeVal o v)) v = mergeVal o v := by
  cases v with
  | leaf a => simp [mergeVal_leaf]
  | dict s2 =>
    have hself : dictMerge s2 s2 = s2 :=
      dictMerge_self s2 (by rwa [wfV_dict] at hv)
    cases o with
    | none => simp [mergeVal_none, mergeVal_dict_dict, hself]
    | some w =>
      cases w with
      | leaf c => simp [mergeVal_some_leaf, mergeVal_dict_dict, hself]
      | dict s1 => simp [mergeVal_dict_dict, hidem s1 s2 rfl]

theorem merge_idem_aux (N : Nat) :
    ∀ (d2 : Dict α), sizeOf d2 < N → wfD d2 = true →
      ∀ (d1 : Dict α), dictMerge (dictMerge d1 d2) d2 = dictMerge d1 d2 := by
  induction N with
  | zero => intro d2 h; omega
  | succ N ih =>
    intro d2 hsz hwf d1
    cases d2 with
    | nil => rw [dictMerge_nil]
    | cons hd rest =>
      obtain ⟨k, v⟩ := hd
      obtain ⟨hknotin, hv, hrest⟩ := wfD_cons hwf
      have hszrest : sizeOf rest < N := by
        simp only [List.cons.sizeOf_spec] at hsz
        omega
      have hszv : sizeOf v < N := by
        simp only [List.cons.sizeOf_spec, Prod.mk.sizeOf_spec] at hsz
        omega
      rw [dictMerge_cons d1 k v rest]
      set d1' := assocSet d1 k (mergeVal (alookup d1 k) v) with hd1'
      have hlookM : alookup (dictMerge d1' rest) k =
          some (mergeVal (alookup d1 k) v) := by
        rw [merge_alookup_notin rest _ _ hknotin, hd1', alookup_assocSet_self]
      have habs : mergeVal (some (mergeVal (alookup d1 k) v)) v
          = mergeVal (alookup d1 k) v :=
        mergeVal_absorb _ _ hv
          (fun s1 s2 hv2 => by
            subst hv2
            have hwfs2 : wfD s2 = true := by rwa [wfV_dict] at hv
            have hszs2 : sizeOf s2 < N := by
              simp only [YVal.dict.sizeOf_spec] at hszv
              omega
            exact ih s2 hszs2 hwfs2 s1)
      rw [dictMerge_cons (dictMerge d1' rest) k v rest, hlookM, habs,
        assocSet_eq_self _ _ _ hlookM]
      exact ih rest hszrest hrest d1'

/-! ### Claim C1 and C2 theorems -/

/-- A concrete parsed settings file used to instantiate the merge theorems:
it overrides `job.name` and adds a fresh top-level key. -/
def settingsSample : Dict SVal :=
  [("job", YVal.dict [("name", YVal.leaf (SVal.s "MyScan"))]),
   ("extra", YVal.leaf (SVal.i 7))]

/-- C1: for every default mapping `D` and override mapping `O` (any Python
dictionary, hence with duplicate-free keys), `dict_merge` keeps `D`'s value at
keys absent from `O`; at keys present in `O` it stores `O`'s value, except
that two nested mappings are merged recursively; consequently every leaf path
of `O` survives into the result with `O`'s value, and every leaf path of the
result either carries `O`'s value or is no leaf path of `O` at all and
carries `D`'s value. -/
theorem dict_merge_spec (α : Type) (D O : Dict α) (h : wfD O = true) :
    (∀ k, k ∉ O.map Prod.fst → alookup (dictMerge D O) k = alookup D k) ∧
    (∀ k v, alookup O k = some v →
      alookup (dictMerge D O) k = some (mergeVal (alookup D k) v)) ∧
    (∀ p a, leafAtD O p = some a → leafAtD (dictMerge D O) p = some a) ∧
    (∀ p b, leafAtD (dictMerge D O) p = some b →
      leafAtD O p = some b ∨ (leafAtD O p = none ∧ leafAtD D p = some b)) :=
  ⟨fun k hk => merge_alookup_notin O D k hk,
   fun k v hv => merge_alookup_in O D k v (wfD_nodup h) hv,
   fun p a ha => leaf_complete_aux (sizeOf O + 1) O (by omega) h D p a ha,
   fun p b hb => leaf_sound_aux (sizeOf O + 1) O (by omega) h D p b hb⟩

/-- Witness for C1 at a concrete override of the real default settings. -/
theorem dict_merge_spec_witness :
    wfD settingsSample = true ∧
    leafAtD (dictMerge default_settings settingsSample) ["job", "name"]
      = some (SVal.s "MyScan") := by
  have hwf : wfD settingsSample = true := rfl
  exact ⟨hwf, (dict_merge_spec SVal default_settings settingsSample hwf).2.2.1
    ["job", "name"] (SVal.s "MyScan") rfl⟩

/-- C2: the settings merge is idempotent: merging an override `O` onto the
result of merging `O` onto defaults `D` returns that result unchanged. -/
theorem dict_merge_idempotent (α : Type) (D O : Dict α) (h : wfD O = true) :
    dictMerge (dictMerge D O) O = dictMerge D O :=
  merge_idem_aux (sizeOf O + 1) O (by omega) h D

/-- Witness for C2 at a concrete override of the real default settings. -/
theorem dict_merge_idempotent_witness :
    wfD settingsSample = true ∧
    dictMerge (dictMerge default_settings settingsSample) settingsSample
      = dictMerge default_settings settingsSample := by
  have hwf : wfD settingsSample = true := rfl
  exact ⟨hwf, dict_merge_idempotent SVal default_settings settingsSample hwf⟩

/-! ## Trajectory velocity list (`ect-smart-scan.py`, trajectory setup) -/

/-- The YAML value found at `settings["trajectory"]["v"]`, as discriminated by
the script's `isinstance` checks: a bare float, a list of floats, or anything
else. -/
inductive Velocity (α : Type) where
  | scalar : α → Velocity α
  | vlist : List α → Velocity α
  | invalid : Velocity α

/-- First coordinates of the trajectory (`x_list` in the script). -/
def x_list (coords : List (α × α)) : List α := coords.map Prod.fst

/-- Second coordinates of the trajectory (`y_list` in the script). -/
def y_list (coords : List (α × α)) : List α := coords.map Prod.snd

/-- The velocity-list construction of `ect-smart-scan.py`: a scalar is
replicated once per coordinate; a list shorter than the coordinate count is
cycled through by index modulo its length (Python raises ZeroDivisionError
when that length is zero); a list at least as long is truncated; any other
type raises TypeError. -/
def build_v_list (v : Velocity α) (n : Nat) : Except String (List α) :=
  match v with
  | Velocity.scalar a => Except.ok (List.replicate n a)
  | Velocity.vlist l =>
    if l.length < n then
      if h0 : l.length = 0 then
        Except.error "ZeroDivisionError: integer division or modulo by zero"
      else
        Except.ok ((List.range n).map (fun i =>
          l.get ⟨i % l.length, Nat.mod_lt i (Nat.pos_of_ne_zero h0)⟩))
    else Except.ok (l.take n)
  | Velocity.invalid => Except.error "TypeError: Velocity should be a list of floats or a float."

/-- C4 (amended): for a velocity list `l` that is nonempty or at least as
long as the coordinate list, the trajectory setup produces a velocity
sequence of length exactly `N = coords.length`, cycling by index modulo
`l.length` when `l` is shorter and truncating to the first `N` values
otherwise; the x, y and velocity sequences all have length `N`. -/
theorem trajectory_vlist (α : Type) (coords : List (α × α)) (l : List α)
    (h : l ≠ [] ∨ coords.length ≤ l.length) :
    ∃ out, build_v_list (Velocity.vlist l) coords.length = Except.ok out ∧
      out.length = coords.length ∧
      (x_list coords).length = coords.length ∧
      (y_list coords).length = coords.length ∧
      (l.length < coords.length →
        ∀ i < coords.length, out[i]? = l[i % l.length]?) ∧
      (coords.length ≤ l.length → out = l.take coords.length) := by
  by_cases hlt : l.length < coords.length
  · have h0 : l.length ≠ 0 := by
      rcases h with h1 | h2
      · simpa [List.length_eq_zero] using h1
      · omega
    refine ⟨(List.range coords.length).map (fun i =>
        l.get ⟨i % l.length, Nat.mod_lt i (Nat.pos_of_ne_zero h0)⟩), ?_, ?_, ?_, ?_, ?_, ?_⟩
    · simp [build_v_list, hlt, h0]
    · simp
    · simp [x_list]
    · simp [y_list]
    · intro _ i hi
      have hmod : i % l.length < l.length := Nat.mod_lt i (Nat.pos_of_ne_zero h0)
      rw [List.getElem?_map, List.getElem?_range hi]
      simp [List.getElem?_eq_getElem hmod, List.get_eq_getElem]
    · omega
  · refine ⟨l.take coords.length, ?_, ?_, ?_, ?_, ?_, ?_⟩
    · simp [build_v_list, hlt]
    · simp; omega
    · simp [x_list]
    · simp [y_list]
    · omega
    · intro _; rfl

/-- Witness for C4: three coordinates with a two-element velocity list. -/
theorem trajectory_vlist_witness :
    ([10, 20] : List Nat) ≠ [] ∧
    ∃ out, build_v_list (Velocity.vlist ([10, 20] : List Nat)) 3 = Except.ok out ∧
      out.length = 3 := by
  obtain ⟨out, h1, h2, _⟩ :=
    trajectory_vlist Nat [((1 : Nat), (1 : Nat)), (1, 1), (1, 1)] [10, 20]
      (Or.inl (by simp))
  exact ⟨by simp, out, h1, h2⟩

/-- C4 counterexample: an empty velocity list with one coordinate makes the
script raise ZeroDivisionError (from `i % len(v)` with `len(v) = 0`), so no
length-1 velocity sequence is produced, contrary to the unrestricted claim. -/
theorem trajectory_vlist_counterexample :
    build_v_list (Velocity.vlist ([] : List Nat)) 1
      = Except.error "ZeroDivisionError: integer division or modulo by zero" := rfl

/-- C5: a scalar velocity is broadcast to `N` identical copies, one per
coordinate, and the x, y and velocity outputs all have length `N`. -/
theorem trajectory_scalar (α : Type) (a : α) (coords : List (α × α)) :
    build_v_list (Velocity.scalar a) coords.length
      = Except.ok (List.replicate coords.length a) ∧
    (List.replicate coords.length a).length = coords.length ∧
    (x_list coords).length = coords.length ∧
    (y_list coords).length = coords.length ∧
    ∀ x ∈ List.replicate coords.length a, x = a :=
  ⟨rfl, List.length_replicate .., by simp [x_list], by simp [y_list],
    fun x hx => List.eq_of_mem_replicate hx⟩

/-! ## NumPy shapes and the export utilities (`helpers.save_csv`, `helpers.plot_data`)

Arrays are embedded by their shapes (lists of dimension sizes); `save_csv`
and `plot_data` are functions from the current filesystem (the list of
existing file names) and the call arguments to the filesystem after the call
together with the call's outcome (success or the Python exception raised,
encoded as a message string). -/

/-- `np.squeeze` at the shape level: every axis of size one is removed. -/
def npSqueeze (s : List Nat) : List Nat := s.filter (fun d => decide (d ≠ 1))

/-- Message of the shape-validation ValueError in both export functions. -/
def broadcastErr : String := "ValueError: x, y and z should all have broadcastable shapes."

/-- Message of the IndexError raised by `shape[0]` on a 0-d array. -/
def shapeIndexErr : String := "IndexError: tuple index out of range"

/-- Message of the ValueError raised by `reshape(0, -1)` on an empty array. -/
def reshapeErr : String := "ValueError: cannot reshape array of size 0 into shape (0,newaxis)"

/-- Message of the AttributeError raised by `zaxis.shape` when `zaxis` is None. -/
def attrErr : String := "AttributeError: NoneType object has no attribute shape"

/-- Message of the ValueError raised when `zaxis` does not match `z`'s columns. -/
def zaxisMismatchErr : String := "ValueError: 1st dim of z and zaxis must have the same shape."

/-- Message of the ValueError raised when `z` has more than ten columns and the
override flag is not set. -/
def tooLongErr : String := "ValueError: zaxis is too large. If you meant to save more than 10, set ignore_long_z_warning=True"

/-- Message of the TypeError raised by iterating a 0-d label array when `z`
has a single column (the default string `zlabel` stays 0-d after `asarray`). -/
def zeroDimIterErr : String := "TypeError: iteration over a 0-d array"

/-- Message of the IndexError raised while writing rows when an index runs
past `y` or `z`. -/
def rowsIndexErr : String := "IndexError: index out of bounds"

/-- The shape check of `save_csv`:
`if x.shape != y.shape and y.shape[0] != z.shape[0]` with Python's
short-circuit `and`; `y.shape[0]` raises IndexError when squeezed `y` is 0-d.
Returns the raised message, if any. -/
def shapeCheckSave (xs ys : List Nat) (z0 : Nat) : Option String :=
  if xs ≠ ys then
    match ys with
    | [] => some shapeIndexErr
    | y0 :: _ => if y0 ≠ z0 then some broadcastErr else none
  else none

/-- The `z.shape[1] != 1` block of `save_csv`: with `zaxis` None, reading
`zaxis.shape` raises AttributeError; a length mismatch raises ValueError; more
than ten columns without the override flag raises ValueError; otherwise the
column labels are built.  With a single column the block is skipped and the
scalar `zlabel` stays a 0-d array, so the later header iteration is doomed:
the inner value records the deferred header outcome. -/
def zaxisBlock (zCols : Nat) (zaxis : Option (List Int))
    (ignore_long_z_warning : Bool) (zlabel : String) :
    Except String (Except String (List String)) :=
  if zCols ≠ 1 then
    match zaxis with
    | none => Except.error attrErr
    | some za =>
      if zCols ≠ za.length then Except.error zaxisMismatchErr
      else if 10 < zCols ∧ ignore_long_z_warning = false then Except.error tooLongErr
      else Except.ok (Except.ok (za.map (fun a => zlabel ++ toString a)))
  else Except.ok (Except.error zeroDimIterErr)

/-- Whether `arr[i]` is in bounds for an array of the given shape (false for a
0-d array, whose indexing raises). -/
def idxOk (shape : List Nat) (i : Nat) : Bool :=
  match shape with
  | [] => false
  | d :: _ => decide (i < d)

/-- The row loop of `save_csv`: `for idx in range(x.shape[0])` writes
`[x[idx], y[idx], *z[idx, :]]`; `x.shape[0]` raises IndexError on a 0-d `x`,
and any out-of-bounds `y[idx]` or `z[idx, :]` raises IndexError. -/
def writeRows (xs ys : List Nat) (z0 : Nat) : Except String Unit :=
  match xs with
  | [] => Except.error shapeIndexErr
  | x0 :: _ =>
    if (List.range x0).all (fun i => idxOk ys i && decide (i < z0)) then Except.ok ()
    else Except.error rowsIndexErr

/-- The stem with collision suffix `n`: Python's `f"{filename} ({idx})"`. -/
def nthStem (stem : String) (i : Nat) : String :=
  stem ++ " (" ++ Nat.repr i ++ ")"

/-- The collision loop `while os.path.isfile(f"{filename} ({idx}).ext")`,
made total with explicit fuel (the loop always halts because fresh suffixed
names run out of the finite filesystem). -/
def searchIdx (files : List String) (stem ext : String) : Nat → Nat → Nat
  | 0, i => i
  | fuel + 1, i =>
    if (nthStem stem i ++ ext) ∈ files then searchIdx files stem ext fuel (i + 1)
    else i

/-- Filename resolution of both export functions: keep the requested stem when
`stem ++ ext` is free, otherwise append `" (n)"` for the first free `n ≥ 1`. -/
def resolveStem (files : List String) (stem ext : String) : String :=
  if (stem ++ ext) ∈ files then
    nthStem stem (searchIdx files stem ext (files.length + 1) 1)
  else stem

/-- `helpers.save_csv` over shapes and the filesystem.  Mirrors the source
order: squeeze and reshape (`z.shape[0]` first), the x/y/z shape check, the
`zaxis` block, filename resolution, file creation, header write (which raises
on the 0-d label array when `z` has one column), then the row loop. -/
def save_csv (files : List String) (filename : String)
    (xshape yshape zshape : List Nat) (zlabel : String)
    (zaxis : Option (List Int)) (ignore_long_z_warning : Bool) :
    List String × Except String Unit :=
  match zshape with
  | [] => (files, Except.error shapeIndexErr)
  | z0 :: zrest =>
    if z0 = 0 then (files, Except.error reshapeErr)
    else
      let xs := npSqueeze xshape
      let ys := npSqueeze yshape
      let zCols := zrest.prod
      match shapeCheckSave xs ys z0 with
      | some e => (files, Except.error e)
      | none =>
        match zaxisBlock zCols zaxis ignore_long_z_warning zlabel with
        | Except.error e => (files, Except.error e)
        | Except.ok labels =>
          let stem := resolveStem files filename ".csv"
          let files2 := (stem ++ ".csv") :: files
          match labels with
          | Except.error e => (files2, Except.error e)
          | Except.ok _ => (files2, writeRows xs ys z0)

/-- The data argument `z` of `plot_data`, keeping the dtype distinction the
function inspects: a real-valued or a complex-valued array. -/
inductive NpArr where
  | realA : List ℝ → NpArr
  | cplxA : List ℂ → NpArr

/-- `helpers.plot_data` over shapes, the `z` data and the filesystem: the
shape check `if x.shape != y.shape and y.shape != z.shape`, filename
resolution, the complex-magnitude branch `if z.dtype == complex: z = abs(z)`,
then the scatter plot and `savefig`, which creates the file.  On success the
plotted `z` values are returned. -/
noncomputable def plot_data (files : List String) (filename : String)
    (xshape yshape zshape : List Nat) (zdata : NpArr) :
    List String × Except String (List ℝ) :=
  let xs := npSqueeze xshape
  let ys := npSqueeze yshape
  let zs := npSqueeze zshape
  if xs ≠ ys ∧ ys ≠ zs then (files, Except.error broadcastErr)
  else
    let stem := resolveStem files filename ".png"
    let plotted : List ℝ :=
      match zdata with
      | NpArr.cplxA l => l.map (fun c => Complex.abs c)
      | NpArr.realA l => l
    ((stem ++ ".png") :: files, Except.ok plotted)

/-- Combination of one broadcast dimension pair, following the spec's words
(NumPy rule): two sizes are compatible when they are equal or one of them is
one. -/
def bDim (a b : Nat) : Option Nat :=
  if a = b then some a else if a = 1 then some b else if b = 1 then some a else none

/-- Broadcast of two shapes given with their dimensions reversed (aligned
from the trailing axis), following the spec's words. -/
def bMergeRev : List Nat → List Nat → Option (List Nat)
  | [], t => some t
  | s, [] => some s
  | a :: s, b :: t =>
    match bDim a b, bMergeRev s t with
    | some d, some r => some (d :: r)
    | _, _ => none

/-- Broadcast compatibility of three shapes, following the spec's words; this
is the property the spec claims the export shape checks enforce. -/
def spec_broadcastable3 (s t u : List Nat) : Bool :=
  match bMergeRev s.reverse t.reverse with
  | some r => (bMergeRev r u.reverse).isSome
  | none => false

/-! ### Decimal representations are injective

Needed for the filename-collision argument: distinct suffix indices give
distinct file names, so a fresh name always exists among the first
`files.length + 1` candidates. -/

/-- Decimal value of one digit character. -/
def decodeDigit (c : Char) : Nat := c.toNat - 48

/-- Decimal value of a digit string. -/
def decodeDigits (l : List Char) : Nat :=
  l.foldl (fun a c => 10 * a + decodeDigit c) 0

theorem decodeDigit_digitChar : ∀ k, k < 10 → decodeDigit (Nat.digitChar k) = k := by
  decide

theorem toDigitsCore_decode :
    ∀ (fuel n : Nat) (ds : List Char), n < fuel →
      List.foldl (fun a c => 10 * a + decodeDigit c) 0 (Nat.toDigitsCore 10 fuel n ds)
        = List.foldl (fun a c => 10 * a + decodeDigit c) n ds := by
  intro fuel
  induction fuel with
  | zero => intro n ds h; omega
  | succ fuel ih =>
    intro n ds h
    rw [show Nat.toDigitsCore 10 (fuel + 1) n ds =
        (if n / 10 = 0 then Nat.digitChar (n % 10) :: ds
         else Nat.toDigitsCore 10 fuel (n / 10) (Nat.digitChar (n % 10) :: ds))
      from rfl]
    by_cases hdiv : n / 10 = 0
    · rw [if_pos hdiv]
      have hlt10 : n < 10 := by omega
      simp only [List.foldl_cons, Nat.mul_zero, Nat.zero_add]
      rw [Nat.mod_eq_of_lt hlt10, decodeDigit_digitChar n hlt10]
    · rw [if_neg hdiv]
      have hlt : n / 10 < fuel := by omega
      rw [ih (n / 10) (Nat.digitChar (n % 10) :: ds) hlt]
      simp only [List.foldl_cons]
      rw [decodeDigit_digitChar (n % 10) (Nat.mod_lt n (by omega)),
        Nat.div_add_mod n 10]

theorem decodeDigits_repr (n : Nat) : decodeDigits (Nat.repr n).data = n := by
  have hdata : (Nat.repr n).data = Nat.toDigitsCore 10 (n + 1) n [] := rfl
  rw [hdata]
  have := toDigitsCore_decode (n + 1) n [] (by omega)
  simpa [decodeDigits] using this

theorem repr_data_injective {m n : Nat}
    (h : (Nat.repr m).data = (Nat.repr n).data) : m = n := by
  have hm := decodeDigits_repr m
  have hn := decodeDigits_repr n
  rw [h] at hm
  omega

theorem nthStem_ext_injective (stem ext : String) {i j : Nat}
    (h : nthStem stem i ++ ext = nthStem stem j ++ ext) : i = j := by
  have hd := congrArg String.data h
  simp only [nthStem, String.data_append, List.append_assoc] at hd
  have h1 := List.append_cancel_left hd
  have h2 := List.append_cancel_left h1
  have h3 := List.append_cancel_right h2
  exact repr_data_injective h3

theorem toDigitsCore_length_pos :
    ∀ (fuel n : Nat) (ds : List Char), n < fuel →
      0 < (Nat.toDigitsCore 10 fuel n ds).length := by
  intro fuel
  induction fuel with
  | zero => intro n ds h; omega
  | succ fuel ih =>
    intro n ds h
    rw [show Nat.toDigitsCore 10 (fuel + 1) n ds =
        (if n / 10 = 0 then Nat.digitChar (n % 10) :: ds
         else Nat.toDigitsCore 10 fuel (n / 10) (Nat.digitChar (n % 10) :: ds))
      from rfl]
    by_cases hdiv : n / 10 = 0
    · simp [hdiv]
    · rw [if_neg hdiv]
      exact ih (n / 10) _ (by omega)

theorem repr_length_pos (i : Nat) : 0 < (Nat.repr i).length :=
  toDigitsCore_length_pos (i + 1) i [] (by omega)

/-- A suffixed name is never the unsuffixed name: the suffix adds at least
four characters. -/
theorem nthStem_ne_base (stem ext : String) (i : Nat) :
    nthStem stem i ++ ext ≠ stem ++ ext := by
  intro h
  have hlen := congrArg String.length h
  simp only [nthStem, String.length_append] at hlen
  have h2 : (" (" : String).length = 2 := rfl
  have h3 : ((")") : String).length = 1 := rfl
  have h4 := repr_length_pos i
  omega

/-! ### The collision-avoidance loop -/

theorem searchIdx_spec (files : List String) (stem ext : String) :
    ∀ (fuel start : Nat),
      (∃ j, start ≤ j ∧ j < start + fuel ∧ (nthStem stem j ++ ext) ∉ files) →
      (nthStem stem (searchIdx files stem ext fuel start) ++ ext) ∉ files ∧
      start ≤ searchIdx files stem ext fuel start ∧
      ∀ j, start ≤ j → j < searchIdx files stem ext fuel start →
        (nthStem stem j ++ ext) ∈ files := by
  intro fuel
  induction fuel with
  | zero =>
    rintro start ⟨j, h1, h2, _⟩
    omega
  | succ fuel ih =>
    intro start hex
    have hunf : searchIdx files stem ext (fuel + 1) start =
        if (nthStem stem start ++ ext) ∈ files then
          searchIdx files stem ext fuel (start + 1)
        else start := rfl
    by_cases hmem : (nthStem stem start ++ ext) ∈ files
    · rw [hunf, if_pos hmem]
      have hex' : ∃ j, start + 1 ≤ j ∧ j < start + 1 + fuel ∧
          (nthStem stem j ++ ext) ∉ files := by
        obtain ⟨j, hj1, hj2, hj3⟩ := hex
        refine ⟨j, ?_, by omega, hj3⟩
        rcases Nat.eq_or_lt_of_le hj1 with rfl | hlt
        · exact absurd hmem hj3
        · omega
      obtain ⟨ha, hb, hc⟩ := ih (start + 1) hex'
      refine ⟨ha, by omega, fun j hj1 hj2 => ?_⟩
      rcases Nat.eq_or_lt_of_le hj1 with rfl | hlt
      · exact hmem
      · exact hc j (by omega) hj2
    · rw [hunf, if_neg hmem]
      exact ⟨hmem, Nat.le_refl _, fun j hj1 hj2 => by omega⟩

/-- Among the first `files.length + 1` candidate suffixes, one yields a name
not yet on disk: the candidate names are pairwise distinct. -/
theorem exists_free_name (files : List String) (stem ext : String) :
    ∃ j, 1 ≤ j ∧ j < 1 + (files.length + 1) ∧ (nthStem stem j ++ ext) ∉ files := by
  by_contra hall
  push_neg at hall
  set L := (List.range (files.length + 1)).map (fun i => nthStem stem (i + 1) ++ ext)
    with hL
  have hsub : ∀ x ∈ L, x ∈ files := by
    intro x hx
    obtain ⟨i, hi, rfl⟩ := List.mem_map.mp hx
    rw [List.mem_range] at hi
    exact hall (i + 1) (by omega) (by omega)
  have hinj : Function.Injective (fun i => nthStem stem (i + 1) ++ ext) := by
    intro a b hab
    have := nthStem_ext_injective stem ext hab
    omega
  have hnodup : L.Nodup := (List.nodup_range _).map hinj
  have hlen : L.length = files.length + 1 := by simp [hL]
  have hcard : L.length ≤ files.length := by
    calc L.length = L.toFinset.card := (List.toFinset_card_of_nodup hnodup).symm
    _ ≤ files.toFinset.card := Finset.card_le_card (fun x hx =>
        List.mem_toFinset.mpr (hsub x (List.mem_toFinset.mp hx)))
    _ ≤ files.length := files.toFinset_card_le
  omega

/-- Full behaviour of filename resolution: the chosen name is never an
existing file, the stem is kept when free, and otherwise the first free
suffix index at least one is appended. -/
theorem resolveStem_spec (files : List String) (stem ext : String) :
    (resolveStem files stem ext ++ ext) ∉ files ∧
    ((stem ++ ext) ∉ files → resolveStem files stem ext = stem) ∧
    ((stem ++ ext) ∈ files →
      ∃ n, 1 ≤ n ∧ resolveStem files stem ext = nthStem stem n ∧
        (nthStem stem n ++ ext) ∉ files ∧
        ∀ j, 1 ≤ j → j < n → (nthStem stem j ++ ext) ∈ files) := by
  by_cases hmem : (stem ++ ext) ∈ files
  · obtain ⟨ha, hb, hc⟩ :=
      searchIdx_spec files stem ext (files.length + 1) 1 (exists_free_name files stem ext)
    have hres : resolveStem files stem ext =
        nthStem stem (searchIdx files stem ext (files.length + 1) 1) := by
      simp [resolveStem, hmem]
    refine ⟨?_, fun h => absurd hmem h, fun _ => ⟨_, hb, hres, ha, hc⟩⟩
    rw [hres]
    exact ha
  · have hres : resolveStem files stem ext = stem := by simp [resolveStem, hmem]
    refine ⟨?_, fun _ => hres, fun h => absurd h hmem⟩
    rw [hres]
    exact hmem

/-! ### Outcome classification of the export functions -/

theorem zaxisBlock_error_cases {zCols : Nat} {za : Option (List Int)} {fl : Bool}
    {lab : String} {e : String} (h : zaxisBlock zCols za fl lab = Except.error e) :
    e = attrErr ∨ e = zaxisMismatchErr ∨ e = tooLongErr := by
  unfold zaxisBlock at h
  split at h
  · split at h
    · exact Or.inl (Except.error.inj h).symm
    · split at h
      · exact Or.inr (Or.inl (Except.error.inj h).symm)
      · split at h
        · exact Or.inr (Or.inr (Except.error.inj h).symm)
        · exact Except.noConfusion h
  · exact Except.noConfusion h

theorem zaxisBlock_ok_error {zCols : Nat} {za : Option (List Int)} {fl : Bool}
    {lab : String} {inner : Except String (List String)} {e : String}
    (h : zaxisBlock zCols za fl lab = Except.ok inner)
    (hin : inner = Except.error e) : e = zeroDimIterErr := by
  unfold zaxisBlock at h
  split at h
  · split at h
    · exact Except.noConfusion h
    · split at h
      · exact Except.noConfusion h
      · split at h
        · exact Except.noConfusion h
        · rw [← Except.ok.inj h] at hin
          exact Except.noConfusion hin
  · rw [← Except.ok.inj h] at hin
    exact (Except.error.inj hin).symm

theorem writeRows_error_cases {xs ys : List Nat} {z0 : Nat} {e : String}
    (h : writeRows xs ys z0 = Except.error e) :
    e = shapeIndexErr ∨ e = rowsIndexErr := by
  unfold writeRows at h
  split at h
  · exact Or.inl (Except.error.inj h).symm
  · split at h
    · exact Except.noConfusion h
    · exact Or.inr (Except.error.inj h).symm

theorem shapeCheckSave_eq_broadcast_iff (xs ys : List Nat) (z0 : Nat) :
    shapeCheckSave xs ys z0 = some broadcastErr ↔
      (xs ≠ ys ∧ ∃ y0 t, ys = y0 :: t ∧ y0 ≠ z0) := by
  cases ys with
  | nil =>
    constructor
    · intro h
      by_cases hxy : xs ≠ ([] : List Nat)
      · have hval : shapeCheckSave xs [] z0 = some shapeIndexErr := by
          simp [shapeCheckSave, hxy]
        rw [hval] at h
        exact absurd (Option.some.inj h) (by decide)
      · have hval : shapeCheckSave xs [] z0 = none := by
          simp [shapeCheckSave, hxy]
        rw [hval] at h
        exact Option.noConfusion h
    · rintro ⟨_, y0, t, heq, _⟩
      exact List.noConfusion heq
  | cons y0 t =>
    by_cases hxy : xs ≠ y0 :: t
    · by_cases hyz : y0 ≠ z0
      · have hval : shapeCheckSave xs (y0 :: t) z0 = some broadcastErr := by
          simp [shapeCheckSave, hxy, hyz]
        rw [hval]
        exact iff_of_true rfl ⟨hxy, y0, t, rfl, hyz⟩
      · have hval : shapeCheckSave xs (y0 :: t) z0 = none := by
          simp [shapeCheckSave, hxy, hyz]
        rw [hval]
        constructor
        · intro h
          exact Option.noConfusion h
        · rintro ⟨_, y0', t', heq, hyz'⟩
          injection heq with e1 e2
          subst e1
          exact absurd hyz' hyz
    · have hval : shapeCheckSave xs (y0 :: t) z0 = none := by
        simp [shapeCheckSave, hxy]
      rw [hval]
      constructor
      · intro h
        exact Option.noConfusion h
      · rintro ⟨hxy', _⟩
        exact absurd hxy' hxy

theorem save_csv_pass_ne_broadcast (files : List String) (fn : String)
    (xshape yshape : List Nat) (zlabel : String) (zaxis : Option (List Int))
    (flag : Bool) (z0 : Nat) (zrest : List Nat)
    (hz0 : ¬ z0 = 0)
    (hsc : shapeCheckSave (npSqueeze xshape) (npSqueeze yshape) z0 = none) :
    (save_csv files fn xshape yshape (z0 :: zrest) zlabel zaxis flag).2
      ≠ Except.error broadcastErr := by
  cases hzb : zaxisBlock zrest.prod zaxis flag zlabel with
  | error e =>
    have houtc : (save_csv files fn xshape yshape (z0 :: zrest) zlabel zaxis flag).2
        = Except.error e := by
      simp [save_csv, hz0, hsc, hzb]
    rw [houtc]
    intro h
    have he := Except.error.inj h
    rcases zaxisBlock_error_cases hzb with rfl | rfl | rfl <;> exact absurd he (by decide)
  | ok inner =>
    cases inner with
    | error e =>
      have houtc : (save_csv files fn xshape yshape (z0 :: zrest) zlabel zaxis flag).2
          = Except.error e := by
        simp [save_csv, hz0, hsc, hzb]
      rw [houtc]
      intro h
      have he := Except.error.inj h
      have := zaxisBlock_ok_error hzb rfl
      rw [this] at he
      exact absurd he (by decide)
    | ok labs =>
      have houtc : (save_csv files fn xshape yshape (z0 :: zrest) zlabel zaxis flag).2
          = writeRows (npSqueeze xshape) (npSqueeze yshape) z0 := by
        simp [save_csv, hz0, hsc, hzb]
      rw [houtc]
      intro h
      rcases writeRows_error_cases h with h1 | h1 <;> exact absurd h1 (by decide)

theorem save_csv_broadcast_iff (files : List String) (fn : String)
    (xshape yshape : List Nat) (zlabel : String) (zaxis : Option (List Int))
    (flag : Bool) (z0 : Nat) (zrest : List Nat) (hz0 : 0 < z0) :
    (save_csv files fn xshape yshape (z0 :: zrest) zlabel zaxis flag).2
        = Except.error broadcastErr ↔
      (npSqueeze xshape ≠ npSqueeze yshape ∧
        ∃ y0 t, npSqueeze yshape = y0 :: t ∧ y0 ≠ z0) := by
  have h1 : ¬ z0 = 0 := by omega
  constructor
  · intro h
    cases hsc : shapeCheckSave (npSqueeze xshape) (npSqueeze yshape) z0 with
    | none =>
      exact absurd h (save_csv_pass_ne_broadcast files fn xshape yshape zlabel
        zaxis flag z0 zrest h1 hsc)
    | some e =>
      have houtc : (save_csv files fn xshape yshape (z0 :: zrest) zlabel zaxis flag).2
          = Except.error e := by
        simp [save_csv, h1, hsc]
      rw [houtc] at h
      have he := Except.error.inj h
      rw [he] at hsc
      exact (shapeCheckSave_eq_broadcast_iff _ _ _).mp hsc
  · intro hr
    have hsc : shapeCheckSave (npSqueeze xshape) (npSqueeze yshape) z0
        = some broadcastErr := (shapeCheckSave_eq_broadcast_iff _ _ _).mpr hr
    simp [save_csv, h1, hsc]

theorem plot_data_broadcast_iff (files : List String) (fn : String)
    (xshape yshape zshape : List Nat) (zdata : NpArr) :
    (plot_data files fn xshape yshape zshape zdata).2 = Except.error broadcastErr ↔
      (npSqueeze xshape ≠ npSqueeze yshape ∧ npSqueeze yshape ≠ npSqueeze zshape) := by
  by_cases hc : npSqueeze xshape ≠ npSqueeze yshape ∧ npSqueeze yshape ≠ npSqueeze zshape
  · simp [plot_data, hc]
  · simp [plot_data, hc]

/-! ### Claim C3, C6 and C10 theorems -/

/-- C3 (amended): the export shape checks enforce exactly the source's
conditions, not broadcast compatibility.  `save_csv` raises its broadcast
ValueError precisely when the squeezed x and y shapes differ AND the first
dimension of squeezed y differs from `z.shape[0]`; `plot_data` raises it
precisely when the squeezed x and y shapes differ AND the squeezed y and z
shapes differ. -/
theorem export_shape_check_amended (files : List String) (fn : String)
    (xshape yshape : List Nat) (zlabel : String) (zaxis : Option (List Int))
    (flag : Bool) (z0 : Nat) (zrest : List Nat)
    (pfiles : List String) (pfn : String) (pzshape : List Nat) (zdata : NpArr)
    (hz0 : 0 < z0) :
    ((save_csv files fn xshape yshape (z0 :: zrest) zlabel zaxis flag).2
        = Except.error broadcastErr ↔
      (npSqueeze xshape ≠ npSqueeze yshape ∧
        ∃ y0 t, npSqueeze yshape = y0 :: t ∧ y0 ≠ z0)) ∧
    ((plot_data pfiles pfn xshape yshape pzshape zdata).2
        = Except.error broadcastErr ↔
      (npSqueeze xshape ≠ npSqueeze yshape ∧ npSqueeze yshape ≠ npSqueeze pzshape)) :=
  ⟨save_csv_broadcast_iff files fn xshape yshape zlabel zaxis flag z0 zrest hz0,
   plot_data_broadcast_iff pfiles pfn xshape yshape pzshape zdata⟩

/-- C3 counterexample: x and y squeezed to `[3]` with z of shape `[2, 2]` are
not broadcast compatible, yet the shape check passes: `save_csv` proceeds to
create the file and fails only later, in the row loop, with an IndexError
rather than the broadcast ValueError. -/
theorem export_shape_check_counterexample :
    spec_broadcastable3 (npSqueeze [3]) (npSqueeze [3]) (npSqueeze [2, 2]) = false ∧
    save_csv [] "scan" [3] [3] [2, 2] "RMS Voltage (V)" (some [1, 2]) false
      = (["scan.csv"], Except.error rowsIndexErr) ∧
    rowsIndexErr ≠ broadcastErr :=
  ⟨rfl, rfl, by decide⟩

/-- Witness for C3 at concrete shapes on both export functions. -/
theorem export_shape_check_amended_witness :
    (0 : Nat) < 4 ∧
    (save_csv [] "scan" [2] [3] [4, 1] "RMS Voltage (V)" none false).2
      = Except.error broadcastErr ∧
    (plot_data [] "scan" [2] [3] [5] (NpArr.realA [])).2
      = Except.error broadcastErr := by
  have h := export_shape_check_amended [] "scan" [2] [3] "RMS Voltage (V)" none
    false 4 [1] [] "scan" [5] (NpArr.realA []) (by omega)
  exact ⟨by omega, h.1.mpr ⟨by decide, 3, [], by decide, by decide⟩,
    h.2.mpr ⟨by decide, by decide⟩⟩

/-- C6 (amended): for `z` with more than ten columns and a matching `zaxis`,
given x and y whose squeezed shapes are equal, one-dimensional and no longer
than `z`'s first dimension, the call without the override flag fails with the
`zaxis is too large` ValueError and the call with the flag set succeeds. -/
theorem save_csv_long_zaxis (files : List String) (fn zlabel : String)
    (n z0 : Nat) (zrest : List Nat) (xshape yshape : List Nat) (za : List Int)
    (hx : npSqueeze xshape = [n]) (hy : npSqueeze yshape = [n])
    (hz0 : 0 < z0) (hrow : n ≤ z0)
    (hcols : 10 < zrest.prod) (hza : za.length = zrest.prod) :
    (save_csv files fn xshape yshape (z0 :: zrest) zlabel (some za) false).2
      = Except.error tooLongErr ∧
    (save_csv files fn xshape yshape (z0 :: zrest) zlabel (some za) true).2
      = Except.ok () := by
  have h1 : ¬ z0 = 0 := by omega
  have hsc : shapeCheckSave (npSqueeze xshape) (npSqueeze yshape) z0 = none := by
    rw [hx, hy]
    simp [shapeCheckSave]
  have hcols1 : zrest.prod ≠ 1 := by omega
  have haz : ¬ zrest.prod ≠ za.length := by omega
  constructor
  · have hzb : zaxisBlock zrest.prod (some za) false zlabel
        = Except.error tooLongErr := by
      simp [zaxisBlock, hcols1, haz, hcols]
    simp [save_csv, h1, hsc, hzb]
  · have hzb : zaxisBlock zrest.prod (some za) true zlabel
        = Except.ok (Except.ok (za.map (fun a => zlabel ++ toString a))) := by
      simp [zaxisBlock, hcols1, haz]
    have hwr : writeRows (npSqueeze xshape) (npSqueeze yshape) z0 = Except.ok () := by
      rw [hx, hy]
      have hall : ((List.range n).all (fun i => idxOk [n] i && decide (i < z0))) = true := by
        rw [List.all_eq_true]
        intro i hi
        rw [List.mem_range] at hi
        simp [idxOk]
        omega
      simp [writeRows, hall]
    simp [save_csv, h1, hsc, hzb, hwr]

/-- C6 counterexample: `z` with twelve columns, a matching `zaxis` and the
override flag set still fails when x and y have incompatible shapes, so the
flag alone does not make the call succeed. -/
theorem save_csv_long_zaxis_counterexample :
    (save_csv [] "scan" [2] [3] [4, 12] "spec "
        (some [0, 1, 2, 3, 4, 5, 6, 7, 8, 9, 10, 11]) true).2
      = Except.error broadcastErr ∧
    (save_csv [] "scan" [2] [3] [4, 12] "spec "
        (some [0, 1, 2, 3, 4, 5, 6, 7, 8, 9, 10, 11]) true).2
      ≠ Except.ok () :=
  ⟨rfl, fun h => nomatch h⟩

/-- Witness for C6: twelve columns, matching zaxis, consistent x, y, z. -/
theorem save_csv_long_zaxis_witness :
    npSqueeze [3] = [3] ∧
    (save_csv [] "scan" [3] [3] [3, 12] "spec "
        (some [1, 2, 3, 4, 5, 6, 7, 8, 9, 10, 11, 12]) false).2
      = Except.error tooLongErr ∧
    (save_csv [] "scan" [3] [3] [3, 12] "spec "
        (some [1, 2, 3, 4, 5, 6, 7, 8, 9, 10, 11, 12]) true).2
      = Except.ok () := by
  have h := save_csv_long_zaxis [] "scan" "spec " 3 3 [12] [3] [3]
    [1, 2, 3, 4, 5, 6, 7, 8, 9, 10, 11, 12] rfl rfl (by omega) (by omega)
    (by decide) (by decide)
  exact ⟨rfl, h.1, h.2⟩

/-- C10 (amended): when the reshaped `z` has more than one column, `z` is
nonempty in its first dimension, the x/y/z shape check passes, and `zaxis` is
left at its default None, `save_csv` fails with the AttributeError from
reading `zaxis.shape` — not a ValueError — and the filesystem is unchanged. -/
theorem save_csv_zaxis_none (files : List String) (fn : String)
    (xshape yshape : List Nat) (zlabel : String) (flag : Bool)
    (z0 : Nat) (zrest : List Nat)
    (hz0 : 0 < z0) (hcols : 1 < zrest.prod)
    (hcheck : shapeCheckSave (npSqueeze xshape) (npSqueeze yshape) z0 = none) :
    save_csv files fn xshape yshape (z0 :: zrest) zlabel none flag
      = (files, Except.error attrErr) := by
  have h1 : ¬ z0 = 0 := by omega
  have hcols1 : zrest.prod ≠ 1 := by omega
  have hzb : zaxisBlock zrest.prod none flag zlabel = Except.error attrErr := by
    simp [zaxisBlock, hcols1]
  simp [save_csv, h1, hcheck, hzb]

/-- C10 counterexample: with mismatched x/y shapes, more than one `z` column
and `zaxis` None, the call fails with the broadcast ValueError, which is
raised before the None `zaxis` is ever touched — not with the AttributeError
the unrestricted claim asserts. -/
theorem save_csv_zaxis_none_counterexample :
    (save_csv [] "scan" [2] [3] [4, 2] "RMS Voltage (V)" none false).2
      = Except.error broadcastErr ∧
    broadcastErr ≠ attrErr :=
  ⟨rfl, by decide⟩

/-- Witness for C10 with aligned x, y shapes and a two-column z. -/
theorem save_csv_zaxis_none_witness :
    shapeCheckSave (npSqueeze [3]) (npSqueeze [3]) 3 = none ∧
    save_csv [] "scan" [3] [3] [3, 2] "RMS Voltage (V)" none false
      = ([], Except.error attrErr) := by
  refine ⟨rfl, ?_⟩
  exact save_csv_zaxis_none [] "scan" [3] [3] "RMS Voltage (V)" false 3 [2]
    (by omega) (by decide) rfl

/-! ### Claim C7: collision-avoiding filenames -/

theorem save_csv_files_simple (cfiles : List String) (fn zlabel : String) :
    (save_csv cfiles fn [2] [2] [2, 2] zlabel (some [1, 2]) false).1
      = (resolveStem cfiles fn ".csv" ++ ".csv") :: cfiles := rfl

theorem plot_data_files_simple (pfiles : List String) (pfn : String) (zdata : NpArr) :
    (plot_data pfiles pfn [2] [2] [2] zdata).1
      = (resolveStem pfiles pfn ".png" ++ ".png") :: pfiles := rfl

/-- After a first export created `stem ++ ext`, the resolver picks suffix 1
provided that name is still free. -/
theorem resolveStem_after (files : List String) (stem ext : String)
    (h1 : (nthStem stem 1 ++ ext) ∉ files) :
    resolveStem ((stem ++ ext) :: files) stem ext = nthStem stem 1 := by
  have hmem : (stem ++ ext) ∈ (stem ++ ext) :: files := List.mem_cons_self _ _
  have hnot : (nthStem stem 1 ++ ext) ∉ (stem ++ ext) :: files := by
    intro hin
    rcases List.mem_cons.mp hin with heq | hin2
    · exact nthStem_ne_base stem ext 1 heq
    · exact h1 hin2
  have hunf : resolveStem ((stem ++ ext) :: files) stem ext =
      nthStem stem (searchIdx ((stem ++ ext) :: files) stem ext
        (files.length + 1 + 1) 1) := by
    simp [resolveStem, hmem]
  have hstep : searchIdx ((stem ++ ext) :: files) stem ext (files.length + 1 + 1) 1 =
      if (nthStem stem 1 ++ ext) ∈ (stem ++ ext) :: files then
        searchIdx ((stem ++ ext) :: files) stem ext (files.length + 1) 2
      else 1 := rfl
  rw [hunf, hstep, if_neg hnot]

/-- C7: the export functions never write over an existing file: the resolved
name is always fresh, the first free suffix at least one is chosen when the
base name is taken, and two consecutive calls with the same target name
produce `name.csv` then `name (1).csv` (and `name.png` then `name (1).png`). -/
theorem export_no_overwrite (files : List String) (stem ext : String)
    (cfiles : List String) (fn zlabel : String)
    (pfiles : List String) (pfn : String)
    (hcsv : (fn ++ ".csv") ∉ cfiles) (hcsv1 : (nthStem fn 1 ++ ".csv") ∉ cfiles)
    (hpng : (pfn ++ ".png") ∉ pfiles) (hpng1 : (nthStem pfn 1 ++ ".png") ∉ pfiles) :
    ((resolveStem files stem ext ++ ext) ∉ files ∧
      ((stem ++ ext) ∈ files →
        ∃ n, 1 ≤ n ∧ resolveStem files stem ext = nthStem stem n ∧
          (nthStem stem n ++ ext) ∉ files ∧
          ∀ j, 1 ≤ j → j < n → (nthStem stem j ++ ext) ∈ files)) ∧
    ((save_csv cfiles fn [2] [2] [2, 2] zlabel (some [1, 2]) false).1
        = (fn ++ ".csv") :: cfiles ∧
      (save_csv ((fn ++ ".csv") :: cfiles) fn [2] [2] [2, 2] zlabel
          (some [1, 2]) false).1
        = (nthStem fn 1 ++ ".csv") :: (fn ++ ".csv") :: cfiles) ∧
    ((plot_data pfiles pfn [2] [2] [2] (NpArr.realA [])).1
        = (pfn ++ ".png") :: pfiles ∧
      (plot_data ((pfn ++ ".png") :: pfiles) pfn [2] [2] [2] (NpArr.realA [])).1
        = (nthStem pfn 1 ++ ".png") :: (pfn ++ ".png") :: pfiles) := by
  refine ⟨⟨(resolveStem_spec files stem ext).1, (resolveStem_spec files stem ext).2.2⟩,
    ⟨?_, ?_⟩, ⟨?_, ?_⟩⟩
  · rw [save_csv_files_simple, (resolveStem_spec cfiles fn ".csv").2.1 hcsv]
  · rw [save_csv_files_simple, resolveStem_after cfiles fn ".csv" hcsv1]
  · rw [plot_data_files_simple, (resolveStem_spec pfiles pfn ".png").2.1 hpng]
  · rw [plot_data_files_simple, resolveStem_after pfiles pfn ".png" hpng1]

/-- Witness for C7: two consecutive csv exports under the name `scan` on an
empty directory. -/
theorem export_no_overwrite_witness :
    ("scan" ++ ".csv") ∉ ([] : List String) ∧
    (save_csv [] "scan" [2] [2] [2, 2] "RMS Voltage (V)" (some [1, 2]) false).1
      = ["scan" ++ ".csv"] ∧
    (save_csv ["scan" ++ ".csv"] "scan" [2] [2] [2, 2] "RMS Voltage (V)"
        (some [1, 2]) false).1
      = [nthStem "scan" 1 ++ ".csv", "scan" ++ ".csv"] := by
  have h := export_no_overwrite [] "s" ".csv" [] "scan" "RMS Voltage (V)" [] "p"
    (by simp) (by simp) (by simp) (by simp)
  exact ⟨by simp, h.2.1.1, h.2.1.2⟩

/-! ### Claim C8: validation happens before any file is written -/

/-- C8: whenever `save_csv` fails with one of its validation errors (the
broadcast check, the zaxis-length check or the too-many-columns check), or
`plot_data` fails with its broadcast check, the error is raised before any
file is opened, so the filesystem is unchanged. -/
theorem export_validation_before_write
    (files : List String) (fn : String) (xshape yshape zshape : List Nat)
    (zlabel : String) (zaxis : Option (List Int)) (flag : Bool)
    (pfiles : List String) (pfn : String) (pxshape pyshape pzshape : List Nat)
    (zdata : NpArr) :
    (((save_csv files fn xshape yshape zshape zlabel zaxis flag).2
          = Except.error broadcastErr ∨
      (save_csv files fn xshape yshape zshape zlabel zaxis flag).2
          = Except.error zaxisMismatchErr ∨
      (save_csv files fn xshape yshape zshape zlabel zaxis flag).2
          = Except.error tooLongErr) →
      (save_csv files fn xshape yshape zshape zlabel zaxis flag).1 = files) ∧
    ((plot_data pfiles pfn pxshape pyshape pzshape zdata).2
          = Except.error broadcastErr →
      (plot_data pfiles pfn pxshape pyshape pzshape zdata).1 = pfiles) := by
  constructor
  · cases zshape with
    | nil => intro _; rfl
    | cons z0 zrest =>
      by_cases hz0 : z0 = 0
      · intro _
        simp [save_csv, hz0]
      · cases hsc : shapeCheckSave (npSqueeze xshape) (npSqueeze yshape) z0 with
        | some e =>
          intro _
          simp [save_csv, hz0, hsc]
        | none =>
          cases hzb : zaxisBlock zrest.prod zaxis flag zlabel with
          | error e =>
            intro _
            simp [save_csv, hz0, hsc, hzb]
          | ok inner =>
            intro hbad
            exfalso
            cases inner with
            | error e =>
              have houtc : (save_csv files fn xshape yshape (z0 :: zrest)
                  zlabel zaxis flag).2 = Except.error e := by
                simp [save_csv, hz0, hsc, hzb]
              have he := zaxisBlock_ok_error hzb rfl
              rw [houtc, he] at hbad
              rcases hbad with h | h | h <;>
                exact absurd (Except.error.inj h) (by decide)
            | ok labs =>
              have houtc : (save_csv files fn xshape yshape (z0 :: zrest)
                  zlabel zaxis flag).2
                  = writeRows (npSqueeze xshape) (npSqueeze yshape) z0 := by
                simp [save_csv, hz0, hsc, hzb]
              rw [houtc] at hbad
              rcases hbad with h | h | h <;>
                rcases writeRows_error_cases h with h1 | h1 <;>
                  exact absurd h1 (by decide)
  · by_cases hc : npSqueeze pxshape ≠ npSqueeze pyshape ∧
        npSqueeze pyshape ≠ npSqueeze pzshape
    · intro _
      simp [plot_data, hc]
    · intro hbad
      exfalso
      simp [plot_data, hc] at hbad

/-- Witness for C8: a shape-mismatch error leaves the directory unchanged for
both export functions. -/
theorem export_validation_before_write_witness :
    (save_csv [] "scan" [2] [3] [4] "RMS Voltage (V)" none false).2
      = Except.error broadcastErr ∧
    (save_csv [] "scan" [2] [3] [4] "RMS Voltage (V)" none false).1 = [] ∧
    (plot_data [] "scan" [2] [3] [5] (NpArr.realA [])).1 = [] := by
  have h := export_validation_before_write [] "scan" [2] [3] [4]
    "RMS Voltage (V)" none false [] "scan" [2] [3] [5] (NpArr.realA [])
  exact ⟨rfl, h.1 (Or.inl rfl), h.2 rfl⟩

/-! ### Claim C9: complex data is plotted as its magnitude -/

/-- C9: `plot_data` succeeds or fails independently of whether `z` is
complex-typed (the dtype is never inspected by any check), and whenever it
succeeds on complex data the plotted values are the elementwise magnitudes
`abs(z)`. -/
theorem plot_data_complex (files : List String) (fn : String)
    (xshape yshape zshape : List Nat) (l : List ℂ) (r : List ℝ) :
    ((plot_data files fn xshape yshape zshape (NpArr.cplxA l)).2.isOk
        = (plot_data files fn xshape yshape zshape (NpArr.realA r)).2.isOk) ∧
    (∀ out, (plot_data files fn xshape yshape zshape (NpArr.cplxA l)).2
        = Except.ok out → out = l.map (fun c => Complex.abs c)) := by
  by_cases hc : npSqueeze xshape ≠ npSqueeze yshape ∧
      npSqueeze yshape ≠ npSqueeze zshape
  · constructor
    · simp [plot_data, hc]
    · intro out hout
      simp [plot_data, hc] at hout
  · constructor
    · simp [plot_data, hc, Except.isOk, Except.toBool]
    · intro out hout
      simp [plot_data, hc] at hout
      exact hout.symm

/-- Witness for C9: a one-element complex array is plotted as its magnitude. -/
theorem plot_data_complex_witness :
    (plot_data [] "scan" [2] [2] [2] (NpArr.cplxA [Complex.I])).2
      = Except.ok ([Complex.I].map (fun c => Complex.abs c)) ∧
    [Complex.I].map (fun c => Complex.abs c)
      = [Complex.I].map (fun c => Complex.abs c) := by
  have h := (plot_data_complex [] "scan" [2] [2] [2] [Complex.I] []).2
  exact ⟨rfl, h ([Complex.I].map (fun c => Complex.abs c)) rfl⟩

end EctSmartScan
